import Mathlib

/-!
Verification of the backtesting core of the multiple-trading-bots repository.

The Python sources are embedded shallowly over the rationals:
  * backend/backtesting/metrics.py   (win rate, profit factor)
  * backend/utils/grid.py            (arithmetic grid levels)
  * backend/utils/indicators.py      (SMA, EMA, RSI, MACD)
  * backend/backtesting/engine.py    (run_backtest simulation loop)
  * backend/utils/backtest.py        (BacktestEngine order-fill simulation)

Python floats are modelled as rationals; NaN entries of a pandas Series are
modelled as none in a list of Option values; a float that may be the special
infinite value is modelled by the PyFloat sum type.  Functions that raise
ValueError are modelled with Except String.
-/

/-- Python round-half-to-even of a rational to an integer (the semantics of
the builtin round on ties). -/
def pyRoundInt (q : ℚ) : ℤ :=
  let n : ℤ := ⌊q⌋
  let f : ℚ := q - n
  if f < 1/2 then n
  else if 1/2 < f then n + 1
  else if n % 2 = 0 then n else n + 1

/-- Python round(q, ndigits) on a rational. -/
def pyRound (q : ℚ) (ndigits : ℕ) : ℚ :=
  let p : ℚ := (10 : ℚ) ^ ndigits
  (pyRoundInt (q * p) : ℚ) / p

/-- A Python float that may be the special infinite value (metrics.py reports
float inf as a sentinel for the profit factor). -/
inductive PyFloat where
  | val (q : ℚ)
  | inf
deriving DecidableEq, Repr

/-- One record of the simulated trade log, mirroring the Trade pydantic model
of backend/schemas/backtest.py.  Absent optional fields are none. -/
structure Trade where
  entry_timestamp : ℤ
  exit_timestamp : Option ℤ := none
  entry_price : ℚ
  exit_price : Option ℚ := none
  quantity : ℚ
  pnl : Option ℚ := none
  side : String
  avg_entry_price : Option ℚ := none
deriving DecidableEq, Repr

/-- backend/backtesting/metrics.py calculate_win_rate: percentage of trades
whose pnl entry (default 0 when absent, as with dict.get) is positive, over
the total number of trades. -/
def calculate_win_rate (trades : List Trade) : ℚ :=
  if trades = [] then 0
  else
    let winning_trades := (trades.filter (fun t => 0 < t.pnl.getD 0)).length
    let total_trades := trades.length
    if total_trades = 0 then 0
    else pyRound (((winning_trades : ℚ) / (total_trades : ℚ)) * 100) 2

/-- backend/backtesting/metrics.py calculate_profit_factor: gross profit over
absolute gross loss, with the float inf sentinel when gross loss is zero and
0.0 for an empty trade list. -/
def calculate_profit_factor (trades : List Trade) : PyFloat :=
  if trades = [] then .val 0
  else
    let gross_profit := ((trades.filter (fun t => 0 < t.pnl.getD 0)).map
      (fun t => t.pnl.getD 0)).sum
    let gross_loss := |((trades.filter (fun t => t.pnl.getD 0 < 0)).map
      (fun t => t.pnl.getD 0)).sum|
    if gross_loss ≠ 0 then .val (pyRound (gross_profit / gross_loss) 2)
    else .inf

/-- backend/utils/grid.py calculate_arithmetic_grid_levels.  Returns none on
invalid parameters (the sentinel), a single midpoint level when num_grids is
one, and otherwise the num_grids+1 levels lower + i * diff. -/
def calculate_arithmetic_grid_levels (lower_price upper_price : ℚ)
    (num_grids : ℤ) : Option (List ℚ) :=
  if lower_price ≤ 0 ∨ upper_price ≤ lower_price ∨ num_grids ≤ 0 then none
  else if num_grids = 1 then some [(lower_price + upper_price) / 2]
  else
    let price_diff := (upper_price - lower_price) / (num_grids : ℚ)
    some ((List.range (num_grids.toNat + 1)).map
      (fun (i : ℕ) => lower_price + (i : ℚ) * price_diff))

/-- An example trade list: one BUY entry record with no pnl field and one SELL
with positive realized pnl. -/
def winRateExampleTrades : List Trade :=
  [{ entry_timestamp := 0, entry_price := 10, quantity := 1, side := "BUY" },
   { entry_timestamp := 1, entry_price := 12, quantity := 1,
     pnl := some 2, side := "SELL", exit_timestamp := some 1,
     exit_price := some 12 }]

/-- C3, counterexample: on a list with one pnl-free BUY record and one winning
SELL, the code reports a win rate of 50, whereas the claim (denominator
restricted to the single trade carrying a pnl field) demands 100. -/
theorem win_rate_denominator_counterexample :
    calculate_win_rate winRateExampleTrades = 50 ∧
    winRateExampleTrades.countP (fun t => t.pnl.isSome) = 1 ∧
    ((100 : ℚ) * 1 / 1 ≠ 50) := by
  refine ⟨?_, by decide, by norm_num⟩
  with_unfolding_all decide

/-- C3, amended: the win rate is 100 times the number of trades with positive
pnl divided by the total number of trades, rounded half-to-even to two
decimals; every trade is in the denominator, a missing pnl counting as zero
(hence never as a win). -/
theorem win_rate_counts_all_trades (trades : List Trade) (h : trades ≠ []) :
    calculate_win_rate trades =
      pyRound (((trades.countP (fun t => 0 < t.pnl.getD 0) : ℚ) /
        (trades.length : ℚ)) * 100) 2 := by
  unfold calculate_win_rate
  rw [if_neg h]
  have hlen : trades.length ≠ 0 := fun hl => h (List.eq_nil_of_length_eq_zero hl)
  rw [if_neg hlen, List.countP_eq_length_filter]

/-- C3 witness: the amended statement evaluated on the example list. -/
theorem win_rate_counts_all_trades_witness :
    winRateExampleTrades ≠ [] ∧
    calculate_win_rate winRateExampleTrades =
      pyRound (((winRateExampleTrades.countP (fun t => 0 < t.pnl.getD 0) : ℚ) /
        (winRateExampleTrades.length : ℚ)) * 100) 2 :=
  ⟨by decide, win_rate_counts_all_trades winRateExampleTrades (by decide)⟩

/-- C8, counterexample: the empty trade list has no trade with negative pnl,
yet the profit factor is 0.0 rather than the infinite sentinel. -/
theorem profit_factor_empty_counterexample :
    (([] : List Trade).all (fun t => !decide (t.pnl.getD 0 < 0))) = true ∧
    calculate_profit_factor [] = PyFloat.val 0 ∧
    calculate_profit_factor [] ≠ PyFloat.inf := by
  refine ⟨rfl, by simp [calculate_profit_factor], by simp [calculate_profit_factor]⟩

/-- C8, amended: on every non-empty trade list in which no trade has a
negative pnl entry, calculate_profit_factor returns the infinite sentinel
(and, being total, raises nothing); the empty list instead yields 0.0. -/
theorem profit_factor_no_losses_inf (trades : List Trade) (hne : trades ≠ [])
    (hnoloss : ∀ t ∈ trades, ¬ t.pnl.getD 0 < 0) :
    calculate_profit_factor trades = PyFloat.inf := by
  unfold calculate_profit_factor
  rw [if_neg hne]
  have hfilter : trades.filter (fun t => t.pnl.getD 0 < 0) = [] := by
    rw [List.filter_eq_nil_iff]
    intro t ht
    simpa using hnoloss t ht
  rw [hfilter]
  simp

/-- C8 witness: a single winning SELL trade gives the infinite sentinel. -/
theorem profit_factor_no_losses_inf_witness :
    ([{ entry_timestamp := 1, entry_price := 12, quantity := 1,
        pnl := some 2, side := "SELL" }] : List Trade) ≠ [] ∧
    calculate_profit_factor
      [{ entry_timestamp := 1, entry_price := 12, quantity := 1,
         pnl := some 2, side := "SELL" }] = PyFloat.inf :=
  ⟨by decide,
   profit_factor_no_losses_inf _ (by decide) (by decide)⟩

/-- C7, counterexample: with num_grids = 1 the function returns the single
midpoint level, not the claimed n+1 = 2 levels from lower to upper. -/
theorem arithmetic_grid_single_counterexample :
    calculate_arithmetic_grid_levels 1 3 1 = some [2] ∧
    (calculate_arithmetic_grid_levels 1 3 1).map List.length ≠ some 2 := by
  have h : calculate_arithmetic_grid_levels 1 3 1 = some [2] := by
    with_unfolding_all decide
  exact ⟨h, by rw [h]; simp⟩

/-- C7, amended: for lower > 0, upper > lower and n ≥ 2 the function returns
exactly n+1 levels, equally spaced by (upper-lower)/n, starting at lower and
ending exactly at upper; for n = 1 it returns the single midpoint level. -/
theorem arithmetic_grid_levels_spec (lower upper : ℚ) (n : ℤ)
    (hl : 0 < lower) (hu : lower < upper) (hn : 2 ≤ n) :
    ∃ levels, calculate_arithmetic_grid_levels lower upper n = some levels ∧
      levels.length = n.toNat + 1 ∧
      levels.head? = some lower ∧
      levels.getLast? = some upper ∧
      (∀ i, i + 1 < levels.length →
        levels.getD (i+1) 0 - levels.getD i 0 = (upper - lower) / (n : ℚ)) := by
  have hn0 : ¬ (lower ≤ 0 ∨ upper ≤ lower ∨ n ≤ 0) := by
    push_neg
    exact ⟨hl, hu, by omega⟩
  have hn1 : n ≠ 1 := by omega
  have hnq : (n : ℚ) ≠ 0 := by
    exact_mod_cast (by omega : n ≠ 0)
  have hnat : ((n.toNat : ℚ)) = (n : ℚ) := by
    exact_mod_cast Int.toNat_of_nonneg (by omega : (0:ℤ) ≤ n)
  refine ⟨(List.range (n.toNat + 1)).map
      (fun (i : ℕ) => lower + (i : ℚ) * ((upper - lower) / (n : ℚ))), ?_, ?_, ?_, ?_, ?_⟩
  · unfold calculate_arithmetic_grid_levels
    rw [if_neg hn0, if_neg hn1]
  · simp
  · rw [List.range_succ_eq_map]
    simp
  · rw [List.getLast?_eq_getElem?]
    have hlen : ((List.range (n.toNat + 1)).map
        (fun (i : ℕ) => lower + (i : ℚ) * ((upper - lower) / (n : ℚ)))).length
        = n.toNat + 1 := by simp
    rw [hlen]
    simp only [Nat.add_sub_cancel]
    rw [List.getElem?_map]
    rw [List.getElem?_range (by omega)]
    simp only [Option.map_some']
    congr 1
    rw [hnat]
    field_simp
  · intro i hi
    simp only [List.length_map, List.length_range] at hi
    have h1 : ((List.range (n.toNat + 1)).map
        (fun (j : ℕ) => lower + (j : ℚ) * ((upper - lower) / (n : ℚ)))).getD (i+1) 0
        = lower + ((i+1 : ℕ) : ℚ) * ((upper - lower) / (n : ℚ)) := by
      rw [List.getD_eq_getElem?_getD, List.getElem?_map, List.getElem?_range hi]
      simp
    have h2 : ((List.range (n.toNat + 1)).map
        (fun (j : ℕ) => lower + (j : ℚ) * ((upper - lower) / (n : ℚ)))).getD i 0
        = lower + ((i : ℕ) : ℚ) * ((upper - lower) / (n : ℚ)) := by
      rw [List.getD_eq_getElem?_getD, List.getElem?_map,
        List.getElem?_range (by omega)]
      simp
    rw [h1, h2]
    push_cast
    ring

/-- C7 witness: levels for lower 1, upper 3, n = 2. -/
theorem arithmetic_grid_levels_spec_witness :
    (0 : ℚ) < 1 ∧ (1 : ℚ) < 3 ∧ (2 : ℤ) ≤ 2 ∧
    (∃ levels, calculate_arithmetic_grid_levels 1 3 2 = some levels ∧
      levels.length = (2 : ℤ).toNat + 1 ∧
      levels.head? = some 1 ∧
      levels.getLast? = some 3 ∧
      (∀ i, i + 1 < levels.length →
        levels.getD (i+1) 0 - levels.getD i 0 = ((3 : ℚ) - 1) / ((2 : ℤ) : ℚ))) :=
  ⟨by norm_num, by norm_num, le_refl _,
   arithmetic_grid_levels_spec 1 3 2 (by norm_num) (by norm_num) (le_refl _)⟩

/-- pandas Series.ewm(...).mean() with adjust=True: at each position the
weighted average of the non-NaN observations seen so far, the observation
aged k bars carrying weight (1-alpha)^k; a position where fewer than
minPeriods non-NaN observations have been seen yields NaN (none).  num, den
and cnt carry the running weighted sum, weight total and non-NaN count. -/
def ewmGo (beta : ℚ) (minPeriods : ℕ) (num den : ℚ) (cnt : ℕ) :
    List (Option ℚ) → List (Option ℚ)
  | [] => []
  | some v :: xs =>
    (if minPeriods ≤ cnt + 1 then some ((beta * num + v) / (beta * den + 1))
     else none) ::
      ewmGo beta minPeriods (beta * num + v) (beta * den + 1) (cnt + 1) xs
  | none :: xs =>
    (if 1 ≤ cnt ∧ minPeriods ≤ cnt then some ((beta * num) / (beta * den))
     else none) ::
      ewmGo beta minPeriods (beta * num) (beta * den) cnt xs

/-- Exponentially weighted mean with smoothing factor alpha and a minimum
observation count, modelling pandas ewm(...., adjust=True).mean(). -/
def ewmAdjusted (alpha : ℚ) (minPeriods : ℕ) (xs : List (Option ℚ)) :
    List (Option ℚ) :=
  ewmGo (1 - alpha) minPeriods 0 0 0 xs

/-- pandas rolling(window=w, min_periods=w).mean(): the arithmetic mean of
the trailing w values, NaN while fewer than w values are available. -/
def rollingMean (data : List ℚ) (w : ℕ) : List (Option ℚ) :=
  (List.range data.length).map (fun (i : ℕ) =>
    if i + 1 < w then none
    else some ((((data.take (i+1)).drop (i+1-w)).sum) / (w : ℚ)))

/-- backend/utils/indicators.py calculate_sma. -/
def calculate_sma (data : List ℚ) (window : ℤ) :
    Except String (List (Option ℚ)) :=
  if window ≤ 0 then .error "Window period must be positive."
  else if data.length < window.toNat then .ok (data.map (fun _ => none))
  else .ok (rollingMean data window.toNat)

/-- The ewm(span=w, adjust=True, min_periods=w).mean() series used by
calculate_ema; the span parameterisation gives alpha = 2 / (w + 1). -/
def emaSeries (xs : List (Option ℚ)) (w : ℕ) : List (Option ℚ) :=
  ewmAdjusted (2 / ((w : ℚ) + 1)) w xs

/-- backend/utils/indicators.py calculate_ema.  A data length below the
window only logs a warning in the source; the ewm minimum-period mask then
leaves every entry NaN. -/
def calculate_ema (data : List ℚ) (window : ℤ) :
    Except String (List (Option ℚ)) :=
  if window ≤ 0 then .error "Window period must be positive."
  else .ok (emaSeries (data.map some) window.toNat)

/-- pandas Series.diff(): NaN at position 0, consecutive differences after. -/
def diffDeltas (data : List ℚ) : List (Option ℚ) :=
  match data with
  | [] => []
  | x :: xs => none :: List.zipWith (fun a b => some (b - a)) (x :: xs) xs

/-- delta.where(delta > 0, 0).fillna(0) of calculate_rsi. -/
def rsiGains (data : List ℚ) : List ℚ :=
  (diffDeltas data).map (fun d? =>
    match d? with
    | none => 0
    | some d => if 0 < d then d else 0)

/-- (-delta.where(delta < 0, 0)).fillna(0) of calculate_rsi. -/
def rsiLosses (data : List ℚ) : List ℚ :=
  (diffDeltas data).map (fun d? =>
    match d? with
    | none => 0
    | some d => if d < 0 then -d else 0)

/-- gain.ewm(com=window-1, adjust=True, min_periods=window).mean(); the com
parameterisation gives alpha = 1 / window. -/
def rsiAvgGain (data : List ℚ) (w : ℕ) : List (Option ℚ) :=
  ewmAdjusted (1 / (w : ℚ)) w ((rsiGains data).map some)

/-- loss.ewm(com=window-1, adjust=True, min_periods=window).mean(). -/
def rsiAvgLoss (data : List ℚ) (w : ℕ) : List (Option ℚ) :=
  ewmAdjusted (1 / (w : ℚ)) w ((rsiLosses data).map some)

/-- The RSI series of calculate_rsi: 100 - 100/(1+rs) with rs replaced by
infinity (hence RSI 100) where the average loss is zero, and the first
window positions forced to NaN. -/
def rsiValues (data : List ℚ) (w : ℕ) : List (Option ℚ) :=
  (List.range data.length).map (fun (i : ℕ) =>
    if i < w then none
    else
      match (rsiAvgGain data w)[i]?, (rsiAvgLoss data w)[i]? with
      | some (some g), some (some l) =>
          some (if l = 0 then 100 else 100 - 100 / (1 + g / l))
      | _, _ => none)

/-- backend/utils/indicators.py calculate_rsi. -/
def calculate_rsi (data : List ℚ) (window : ℤ) :
    Except String (List (Option ℚ)) :=
  if window ≤ 0 then .error "Window period must be positive."
  else if data.length < window.toNat + 1 then .ok (data.map (fun _ => none))
  else .ok (rsiValues data window.toNat)

/-- NaN-propagating elementwise subtraction of two pandas Series. -/
def seriesSub (a b : List (Option ℚ)) : List (Option ℚ) :=
  List.zipWith (fun x? y? =>
    match x?, y? with
    | some x, some y => some (x - y)
    | _, _ => none) a b

/-- backend/utils/indicators.py calculate_macd, returning the (MACD line,
signal line, histogram) columns.  The positivity checks of the nested
calculate_ema calls are subsumed by the up-front period validation, so the
body uses emaSeries directly. -/
def calculate_macd (data : List ℚ) (fast_period slow_period signal_period : ℤ) :
    Except String (List (Option ℚ) × List (Option ℚ) × List (Option ℚ)) :=
  if ¬ (0 < fast_period ∧ 0 < slow_period ∧ 0 < signal_period) then
    .error "All MACD periods must be positive."
  else if slow_period ≤ fast_period then
    .error "Fast period must be less than slow period for MACD."
  else if data.length < slow_period.toNat then
    .ok (data.map (fun _ => none), data.map (fun _ => none),
         data.map (fun _ => none))
  else
    let ema_fast := emaSeries (data.map some) fast_period.toNat
    let ema_slow := emaSeries (data.map some) slow_period.toNat
    let macd_line := seriesSub ema_fast ema_slow
    let signal_line := emaSeries macd_line signal_period.toNat
    let histogram := seriesSub macd_line signal_line
    .ok (macd_line, signal_line, histogram)

theorem ewmGo_length (beta : ℚ) (minPeriods : ℕ) :
    ∀ (xs : List (Option ℚ)) (num den : ℚ) (cnt : ℕ),
      (ewmGo beta minPeriods num den cnt xs).length = xs.length
  | [], _, _, _ => rfl
  | some v :: xs, num, den, cnt => by
    simp only [ewmGo, List.length_cons]
    rw [ewmGo_length beta minPeriods xs]
  | none :: xs, num, den, cnt => by
    simp only [ewmGo, List.length_cons]
    rw [ewmGo_length beta minPeriods xs]

theorem ewmGo_allSome_defined (beta : ℚ) (minPeriods : ℕ) (hb : 0 ≤ beta) :
    ∀ (xs : List ℚ) (num den : ℚ) (cnt : ℕ) (i : ℕ), i < xs.length →
      (∀ x ∈ xs, 0 ≤ x) → 0 ≤ num → 0 ≤ den → minPeriods ≤ cnt + i + 1 →
      ∃ v, (ewmGo beta minPeriods num den cnt (xs.map some))[i]?
        = some (some v) ∧ 0 ≤ v
  | [], _, _, _, i, hi, _, _, _, _ => absurd hi (by simp)
  | x :: xs, num, den, cnt, 0, _, hxs, hnum, hden, hmin => by
    refine ⟨(beta * num + x) / (beta * den + 1), ?_, ?_⟩
    · simp only [List.map_cons, ewmGo]
      rw [if_pos (by omega : minPeriods ≤ cnt + 1)]
      simp
    · have hx : 0 ≤ x := hxs x (List.mem_cons_self x xs)
      have hnum' : 0 ≤ beta * num + x := by positivity
      have hden' : 0 < beta * den + 1 := by positivity
      exact div_nonneg hnum' hden'.le
  | x :: xs, num, den, cnt, i + 1, hi, hxs, hnum, hden, hmin => by
    have hx : 0 ≤ x := hxs x (List.mem_cons_self x xs)
    have ih := ewmGo_allSome_defined beta minPeriods hb xs
      (beta * num + x) (beta * den + 1) (cnt + 1) i
      (by simpa using Nat.lt_of_succ_lt_succ hi)
      (fun y hy => hxs y (List.mem_cons_of_mem x hy))
      (by positivity) (by positivity) (by omega)
    simpa only [List.map_cons, ewmGo, List.getElem?_cons_succ] using ih

theorem ewmGo_allSome_undefined (beta : ℚ) (minPeriods : ℕ) :
    ∀ (xs : List ℚ) (num den : ℚ) (cnt : ℕ) (i : ℕ), i < xs.length →
      cnt + i + 1 < minPeriods →
      (ewmGo beta minPeriods num den cnt (xs.map some))[i]? = some none
  | [], _, _, _, i, hi, _ => absurd hi (by simp)
  | x :: xs, num, den, cnt, 0, _, hmin => by
    simp only [List.map_cons, ewmGo]
    rw [if_neg (by omega : ¬ minPeriods ≤ cnt + 1)]
    simp
  | x :: xs, num, den, cnt, i + 1, hi, hmin => by
    have ih := ewmGo_allSome_undefined beta minPeriods xs
      (beta * num + x) (beta * den + 1) (cnt + 1) i
      (by simpa using Nat.lt_of_succ_lt_succ hi) (by omega)
    simpa only [List.map_cons, ewmGo, List.getElem?_cons_succ] using ih

theorem diffDeltas_length (data : List ℚ) :
    (diffDeltas data).length = data.length := by
  cases data with
  | nil => rfl
  | cons x xs => simp [diffDeltas]

theorem rsiGains_length (data : List ℚ) :
    (rsiGains data).length = data.length := by
  simp [rsiGains, diffDeltas_length]

theorem rsiLosses_length (data : List ℚ) :
    (rsiLosses data).length = data.length := by
  simp [rsiLosses, diffDeltas_length]

theorem rsiGains_nonneg (data : List ℚ) : ∀ x ∈ rsiGains data, 0 ≤ x := by
  intro x hx
  simp only [rsiGains, List.mem_map] at hx
  obtain ⟨d?, _, rfl⟩ := hx
  cases d? with
  | none => exact le_refl 0
  | some d =>
    by_cases h : 0 < d
    · simp [h, h.le]
    · simp [h]

theorem rsiLosses_nonneg (data : List ℚ) : ∀ x ∈ rsiLosses data, 0 ≤ x := by
  intro x hx
  simp only [rsiLosses, List.mem_map] at hx
  obtain ⟨d?, _, rfl⟩ := hx
  cases d? with
  | none => exact le_refl 0
  | some d =>
    by_cases h : d < 0
    · simp only [if_pos h]
      linarith
    · simp [h]

theorem rsi_beta_nonneg (w : ℕ) (hw : 1 ≤ w) : (0:ℚ) ≤ 1 - 1 / (w : ℚ) := by
  have hw1 : (1:ℚ) ≤ (w : ℚ) := by exact_mod_cast hw
  have : (1:ℚ) / (w : ℚ) ≤ 1 := by
    rw [div_le_one (by linarith)]
    linarith
  linarith

theorem rsiAvgGain_defined (data : List ℚ) (w : ℕ) (hw : 1 ≤ w) (i : ℕ)
    (hi : i < data.length) (hmin : w ≤ i + 1) :
    ∃ g, (rsiAvgGain data w)[i]? = some (some g) ∧ 0 ≤ g := by
  have h := ewmGo_allSome_defined (1 - 1 / (w:ℚ)) w (rsi_beta_nonneg w hw)
    (rsiGains data) 0 0 0 i (by rw [rsiGains_length]; exact hi)
    (rsiGains_nonneg data) (le_refl 0) (le_refl 0) (by omega)
  simpa only [rsiAvgGain, ewmAdjusted] using h

theorem rsiAvgLoss_defined (data : List ℚ) (w : ℕ) (hw : 1 ≤ w) (i : ℕ)
    (hi : i < data.length) (hmin : w ≤ i + 1) :
    ∃ l, (rsiAvgLoss data w)[i]? = some (some l) ∧ 0 ≤ l := by
  have h := ewmGo_allSome_defined (1 - 1 / (w:ℚ)) w (rsi_beta_nonneg w hw)
    (rsiLosses data) 0 0 0 i (by rw [rsiLosses_length]; exact hi)
    (rsiLosses_nonneg data) (le_refl 0) (le_refl 0) (by omega)
  simpa only [rsiAvgLoss, ewmAdjusted] using h

/-- C6: for every price series of length at least window+1 and positive
window, calculate_rsi succeeds, every defined RSI value lies in [0, 100],
and wherever the smoothed average loss is exactly zero the RSI value is
exactly 100. -/
theorem rsi_bounded (data : List ℚ) (window : ℤ) (hw : 0 < window)
    (hlen : window.toNat + 1 ≤ data.length) :
    ∃ out, calculate_rsi data window = Except.ok out ∧
      (∀ (i : ℕ) (v : ℚ), out[i]? = some (some v) → 0 ≤ v ∧ v ≤ 100) ∧
      (∀ (i : ℕ), window.toNat ≤ i → i < data.length →
        (rsiAvgLoss data window.toNat)[i]? = some (some 0) →
        out[i]? = some (some 100)) := by
  have hw1 : 1 ≤ window.toNat := by omega
  refine ⟨rsiValues data window.toNat, ?_, ?_, ?_⟩
  · unfold calculate_rsi
    rw [if_neg (by omega), if_neg (by omega)]
  · intro i v hv
    rw [rsiValues, List.getElem?_map] at hv
    by_cases hi : i < data.length
    · rw [List.getElem?_range hi] at hv
      simp only [Option.map_some', Option.some.injEq] at hv
      by_cases hiw : i < window.toNat
      · rw [if_pos hiw] at hv
        exact absurd hv (by simp)
      · rw [if_neg hiw] at hv
        obtain ⟨g, hg, hg0⟩ :=
          rsiAvgGain_defined data window.toNat hw1 i hi (by omega)
        obtain ⟨l, hl, hl0⟩ :=
          rsiAvgLoss_defined data window.toNat hw1 i hi (by omega)
        rw [hg, hl] at hv
        simp only [Option.some.injEq] at hv
        by_cases hl00 : l = 0
        · rw [if_pos hl00] at hv
          rw [← hv]
          norm_num
        · rw [if_neg hl00] at hv
          have hlpos : 0 < l := lt_of_le_of_ne hl0 (Ne.symm hl00)
          have hrs : (0:ℚ) ≤ g / l := div_nonneg hg0 hl0
          have h1rs : (1:ℚ) ≤ 1 + g / l := by linarith
          have hq1 : (100:ℚ) / (1 + g / l) ≤ 100 :=
            div_le_self (by norm_num) h1rs
          have hq2 : (0:ℚ) < 100 / (1 + g / l) :=
            div_pos (by norm_num) (by linarith)
          rw [← hv]
          constructor <;> linarith
    · rw [List.getElem?_eq_none (by simpa using not_lt.mp hi)] at hv
      exact absurd hv (by simp)
  · intro i hiw hi hloss
    rw [rsiValues, List.getElem?_map, List.getElem?_range hi]
    simp only [Option.map_some']
    rw [if_neg (by omega)]
    obtain ⟨g, hg, _⟩ :=
      rsiAvgGain_defined data window.toNat hw1 i hi (by omega)
    rw [hg, hloss]
    simp

/-- C6 witness: the monotonically rising series 1, 2, 4, 8 with window 2. -/
theorem rsi_bounded_witness :
    (0:ℤ) < 2 ∧ (2:ℤ).toNat + 1 ≤ ([(1:ℚ), 2, 4, 8]).length ∧
    (∃ out, calculate_rsi [(1:ℚ), 2, 4, 8] 2 = Except.ok out ∧
      (∀ (i : ℕ) (v : ℚ), out[i]? = some (some v) → 0 ≤ v ∧ v ≤ 100) ∧
      (∀ (i : ℕ), (2:ℤ).toNat ≤ i → i < ([(1:ℚ), 2, 4, 8]).length →
        (rsiAvgLoss [(1:ℚ), 2, 4, 8] (2:ℤ).toNat)[i]? = some (some 0) →
        out[i]? = some (some 100))) :=
  ⟨by decide, by decide, rsi_bounded [(1:ℚ), 2, 4, 8] 2 (by decide) (by decide)⟩

/-- C10: each indicator raises ValueError on a non-positive window or period
rather than returning an all-NaN sequence; with valid windows the calls
succeed, and the all-NaN output occurs exactly in the documented
insufficient-data situations. -/
theorem indicator_window_validation (data : List ℚ)
    (w fast slow signalp : ℤ) :
    (w ≤ 0 →
      calculate_sma data w = .error "Window period must be positive." ∧
      calculate_ema data w = .error "Window period must be positive." ∧
      calculate_rsi data w = .error "Window period must be positive.") ∧
    (¬ (0 < fast ∧ 0 < slow ∧ 0 < signalp) →
      calculate_macd data fast slow signalp =
        .error "All MACD periods must be positive.") ∧
    (0 < w → ∃ out, calculate_sma data w = .ok out ∧
      (data.length < w.toNat → ∀ o ∈ out, o = none)) ∧
    (0 < w → ∃ out, calculate_ema data w = .ok out ∧
      (data.length < w.toNat → ∀ o ∈ out, o = none)) ∧
    (0 < w → ∃ out, calculate_rsi data w = .ok out ∧
      (data.length < w.toNat + 1 → ∀ o ∈ out, o = none)) ∧
    (0 < fast → fast < slow → 0 < signalp →
      ∃ out, calculate_macd data fast slow signalp = .ok out) := by
  refine ⟨?_, ?_, ?_, ?_, ?_, ?_⟩
  · intro hw
    refine ⟨?_, ?_, ?_⟩
    · unfold calculate_sma; rw [if_pos hw]
    · unfold calculate_ema; rw [if_pos hw]
    · unfold calculate_rsi; rw [if_pos hw]
  · intro h
    unfold calculate_macd
    rw [if_pos h]
  · intro hw
    unfold calculate_sma
    rw [if_neg (by omega)]
    by_cases hshort : data.length < w.toNat
    · rw [if_pos hshort]
      refine ⟨_, rfl, fun _ o ho => ?_⟩
      simp only [List.mem_map] at ho
      obtain ⟨_, _, rfl⟩ := ho
      rfl
    · rw [if_neg hshort]
      exact ⟨_, rfl, fun h => absurd h hshort⟩
  · intro hw
    unfold calculate_ema
    rw [if_neg (by omega)]
    refine ⟨_, rfl, fun hshort o ho => ?_⟩
    rw [List.mem_iff_getElem?] at ho
    obtain ⟨i, hio⟩ := ho
    have hi : i < data.length := by
      by_contra hni
      rw [List.getElem?_eq_none] at hio
      · exact absurd hio (by simp)
      · simp only [emaSeries, ewmAdjusted, ewmGo_length, List.length_map]
        omega
    have hu := ewmGo_allSome_undefined (1 - 2 / ((w.toNat : ℚ) + 1)) w.toNat
      data 0 0 0 i hi (by omega)
    simp only [emaSeries, ewmAdjusted] at hio
    rw [hu] at hio
    exact (Option.some.injEq _ _).mp hio.symm
  · intro hw
    unfold calculate_rsi
    rw [if_neg (by omega)]
    by_cases hshort : data.length < w.toNat + 1
    · rw [if_pos hshort]
      refine ⟨_, rfl, fun _ o ho => ?_⟩
      simp only [List.mem_map] at ho
      obtain ⟨_, _, rfl⟩ := ho
      rfl
    · rw [if_neg hshort]
      exact ⟨_, rfl, fun h => absurd h hshort⟩
  · intro hf hfs hs
    unfold calculate_macd
    rw [if_neg (not_not_intro ⟨hf, by omega, hs⟩), if_neg (by omega)]
    by_cases hshort : data.length < slow.toNat
    · rw [if_pos hshort]
      exact ⟨_, rfl⟩
    · rw [if_neg hshort]
      exact ⟨_, rfl⟩

/-- C10 witness: a negative window errors out; a valid window on a short
series yields an all-NaN success. -/
theorem indicator_window_validation_witness :
    (calculate_sma [(1:ℚ), 2] (-3)
        = .error "Window period must be positive." ∧
      calculate_ema [(1:ℚ), 2] (-3)
        = .error "Window period must be positive." ∧
      calculate_rsi [(1:ℚ), 2] (-3)
        = .error "Window period must be positive.") ∧
    calculate_macd [(1:ℚ), 2] 12 0 9
      = .error "All MACD periods must be positive." ∧
    (∃ out, calculate_ema [(1:ℚ), 2] 5 = .ok out ∧
      (([(1:ℚ), 2]).length < (5:ℤ).toNat → ∀ o ∈ out, o = none)) :=
  ⟨(indicator_window_validation [(1:ℚ), 2] (-3) 1 2 1).1 (by norm_num),
   (indicator_window_validation [(1:ℚ), 2] 12 12 0 9).2.1 (by omega),
   ((indicator_window_validation [(1:ℚ), 2] 5 1 2 1).2.2.2.1) (by norm_num)⟩

/-- One OHLCV bar, mirroring the KLine schema; timestamps are epoch
milliseconds. -/
structure KLine where
  ts : ℤ
  openPrice : ℚ
  highPrice : ℚ
  lowPrice : ℚ
  closePrice : ℚ
  volume : ℚ
deriving DecidableEq, Repr

/-- The side of a simulated trading signal in run_backtest. -/
inductive Side where
  | buy
  | sell
deriving DecidableEq, Repr

/-- The parameters of the Momentum branch of run_backtest that steer the
simulation control flow (the indicator periods themselves only parameterise
the external pandas_ta calls, which are modelled by an oracle). -/
structure MomentumParams where
  rsi_oversold : ℚ
  rsi_overbought : ℚ
  ema_long_period : ℕ
  order_quantity : ℚ
deriving DecidableEq, Repr

/-- The latest indicator values read off the pandas_ta columns at one bar;
none models NaN. -/
structure MomIndicators where
  rsi : Option ℚ
  macd_line : Option ℚ
  macd_signal : Option ℚ
  ema_short : Option ℚ
  ema_long : Option ℚ

/-- Parameters of the Grid branch of run_backtest. -/
structure GridParams where
  lower_bound : ℚ
  upper_bound : ℚ
  num_grids : ℕ
  order_quantity : ℚ
deriving DecidableEq, Repr

/-- Parameters of the DCA branch of run_backtest. -/
structure DCAParams where
  buy_interval_seconds : ℤ
  order_amount_quote : ℚ
deriving DecidableEq, Repr

/-- A bot configuration for run_backtest.  The momentum case carries an
oracle giving, per bar index, the indicator values that the external
pandas_ta library computes there. -/
inductive BotSpec where
  | momentum (p : MomentumParams) (ind : ℕ → MomIndicators)
  | grid (p : GridParams)
  | dca (p : DCAParams)

/-- The mutable simulation state of run_backtest. -/
structure SimState where
  balance : ℚ
  position_quantity : ℚ
  average_entry_price : ℚ
  trades : List Trade
  equity_curve : List (ℤ × ℚ)
  last_price : ℚ
  grid_states : List (ℚ × Bool)
  last_buy_timestamp : ℤ
deriving Repr

/-- np.linspace(lower, upper, num_grids) for num_grids > 1, else the empty
list (run_backtest only builds levels when num_grids > 1). -/
def gridLevels (p : GridParams) : List ℚ :=
  if 1 < p.num_grids then
    (List.range p.num_grids).map
      (fun (i : ℕ) => p.lower_bound +
        (i : ℚ) * ((p.upper_bound - p.lower_bound) / ((p.num_grids : ℚ) - 1)))
  else []

/-- Assignment into the grid-state dictionary: overwrite the value of an
existing key, append otherwise. -/
def dictInsert (l : List (ℚ × Bool)) (k : ℚ) (v : Bool) : List (ℚ × Bool) :=
  if l.any (fun p => p.1 = k) then
    l.map (fun p => if p.1 = k then (p.1, v) else p)
  else l ++ [(k, v)]

/-- The initial grid-state dictionary: every level marked empty (false). -/
def gridInitStates (p : GridParams) : List (ℚ × Bool) :=
  (gridLevels p).foldl (fun acc lvl => dictInsert acc lvl false) []

/-- Lookup of grid_states[level]. -/
def gridLookup (states : List (ℚ × Bool)) (lvl : ℚ) : Bool :=
  (((states.find? (fun p => p.1 = lvl)).map (fun p => p.2)).getD false)

/-- Insertion sort used to model Python sorted on the level list. -/
def insertSorted (x : ℚ) : List ℚ → List ℚ
  | [] => [x]
  | y :: ys => if x ≤ y then x :: y :: ys else y :: insertSorted x ys

def sortLevels (l : List ℚ) : List ℚ := l.foldr insertSorted []

/-- Python max over the keys of a non-empty association list. -/
def maxKey (l : List (ℚ × Bool)) : ℚ :=
  match l with
  | [] => 0
  | p :: ps => (ps.map (fun q => q.1)).foldl max p.1

/-- The level-crossing scan of the Grid branch of run_backtest: walk the
sorted levels, fire the first qualifying buy (downward cross into an empty
level, balance permitting) or sell (upward cross over an empty level with
some bought level below it, position permitting), updating the level
dictionary for the fired trade. -/
def gridScan (order_qty current_price lastp bal pos : ℚ)
    (states : List (ℚ × Bool)) :
    List ℚ → Option Side × ℚ × List (ℚ × Bool)
  | [] => (none, 0, states)
  | lvl :: rest =>
    if lastp > lvl ∧ lvl ≥ current_price ∧ gridLookup states lvl = false then
      if order_qty * current_price ≤ bal then
        (some Side.buy, order_qty, dictInsert states lvl true)
      else gridScan order_qty current_price lastp bal pos states rest
    else if lastp < lvl ∧ lvl ≤ current_price ∧
        gridLookup states lvl = false then
      let below := states.filter (fun p => p.2 && decide (p.1 < lvl))
      if below ≠ [] then
        if order_qty ≤ pos then
          (some Side.sell, order_qty, dictInsert states (maxKey below) false)
        else gridScan order_qty current_price lastp bal pos states rest
      else gridScan order_qty current_price lastp bal pos states rest
    else gridScan order_qty current_price lastp bal pos states rest

/-- The Momentum branch signal of run_backtest: BUY when oversold, MACD above
signal, short EMA above long EMA and flat; SELL (whole position) when
overbought or EMA cross-down while holding; nothing when any indicator is
NaN. -/
def momentumSignal (p : MomentumParams) (v : MomIndicators) (position : ℚ) :
    Option Side × ℚ :=
  match v.rsi, v.macd_line, v.macd_signal, v.ema_short, v.ema_long with
  | some rsi, some ml, some ms, some es, some el =>
    if rsi < p.rsi_oversold ∧ ms < ml ∧ el < es ∧ position = 0 then
      (some Side.buy, p.order_quantity)
    else if (p.rsi_overbought < rsi ∨ es < el) ∧ 0 < position then
      (some Side.sell, position)
    else (none, 0)
  | _, _, _, _, _ => (none, 0)

/-- The signal pass of one run_backtest loop iteration: the bot branch reads
the bar, may emit a (side, quantity) intent, and updates its own scratch
state (grid dictionary and last price, or the DCA last-buy anchor). -/
def genSignal (spec : BotSpec) (i : ℕ) (bar : KLine) (s : SimState) :
    Option Side × ℚ × SimState :=
  match spec with
  | .momentum p ind =>
    let sq := momentumSignal p (ind i) s.position_quantity
    (sq.1, sq.2, s)
  | .grid p =>
    let levels := gridLevels p
    let r :=
      if 0 < p.order_quantity ∧ levels ≠ [] then
        gridScan p.order_quantity bar.closePrice s.last_price s.balance
          s.position_quantity s.grid_states (sortLevels levels)
      else (none, 0, s.grid_states)
    (r.1, r.2.1,
      { s with grid_states := r.2.2, last_price := bar.closePrice })
  | .dca p =>
    if p.buy_interval_seconds * 1000 ≤ bar.ts - s.last_buy_timestamp then
      if p.order_amount_quote ≤ s.balance then
        (some Side.buy, p.order_amount_quote / bar.closePrice,
          { s with last_buy_timestamp := bar.ts })
      else (none, 0, s)
    else (none, 0, s)

/-- The order-execution pass of run_backtest: a BUY deducts the full cost
when the balance covers it (recomputing the average entry price first) and a
SELL adds the proceeds of min(position, quantity), records realized PnL
against the average entry price, and snaps dust positions to zero. -/
def executeSignal (sig : Option Side) (qty price : ℚ) (ts : ℤ)
    (s : SimState) : SimState :=
  match sig with
  | some Side.buy =>
    if 0 < s.balance ∧ 0 < qty then
      let order_cost := qty * price
      if order_cost ≤ s.balance then
        let avg :=
          if (1:ℚ)/1000000000 < s.position_quantity + qty then
            (s.average_entry_price * s.position_quantity + order_cost) /
              (s.position_quantity + qty)
          else price
        { s with
          balance := s.balance - order_cost,
          position_quantity := s.position_quantity + qty,
          average_entry_price := avg,
          trades := s.trades ++
            [{ entry_timestamp := ts, entry_price := price, quantity := qty,
               side := "BUY", avg_entry_price := some avg }] }
      else s
    else s
  | some Side.sell =>
    if 0 < s.position_quantity ∧ 0 < qty then
      let sell_quantity := min s.position_quantity qty
      let proceeds := sell_quantity * price
      let pnl := (price - s.average_entry_price) * sell_quantity
      let s1 :=
        { s with
          balance := s.balance + proceeds,
          position_quantity := s.position_quantity - sell_quantity,
          trades := s.trades ++
            [{ entry_timestamp := ts, exit_timestamp := some ts,
               entry_price := price, exit_price := some price,
               quantity := sell_quantity, pnl := some pnl, side := "SELL",
               avg_entry_price := some s.average_entry_price }] }
      if s1.position_quantity < (1:ℚ)/1000000000 then
        { s1 with average_entry_price := 0, position_quantity := 0 }
      else s1
    else s
  | none => s

/-- Appending the per-bar equity point cash + position * close. -/
def appendEquity (bar : KLine) (s : SimState) : SimState :=
  { s with equity_curve := s.equity_curve ++
      [(bar.ts, s.balance + s.position_quantity * bar.closePrice)] }

/-- One iteration of the run_backtest loop: the momentum warm-up guard skips
straight to the equity snapshot, otherwise signal generation, execution at
the bar close, then the equity snapshot. -/
def processBar (spec : BotSpec) (i : ℕ) (bar : KLine) (s : SimState) :
    SimState :=
  match spec with
  | .momentum p _ =>
    if i < p.ema_long_period then appendEquity bar s
    else
      let r := genSignal spec i bar s
      appendEquity bar (executeSignal r.1 r.2.1 bar.closePrice bar.ts r.2.2)
  | _ =>
    let r := genSignal spec i bar s
    appendEquity bar (executeSignal r.1 r.2.1 bar.closePrice bar.ts r.2.2)

/-- The simulation state before the first bar: full cash balance, no
position, the initial equity point, grid levels all empty, and the DCA
anchor backdated one interval so the first bar may buy. -/
def initState (spec : BotSpec) (bars : List KLine) (cap : ℚ) : SimState :=
  { balance := cap
    position_quantity := 0
    average_entry_price := 0
    trades := []
    equity_curve :=
      match bars.head? with
      | some b => [(b.ts, cap)]
      | none => []
    last_price := ((bars.head?).map (fun b => b.closePrice)).getD 0
    grid_states :=
      match spec with
      | .grid p => gridInitStates p
      | _ => []
    last_buy_timestamp :=
      match spec, bars.head? with
      | .dca p, some b => b.ts - p.buy_interval_seconds * 1000
      | _, _ => -1 }

/-- The state after the run_backtest bar loop, before the terminal
mark-to-market step. -/
def runLoop (spec : BotSpec) (bars : List KLine) (cap : ℚ) : SimState :=
  (bars.enum).foldl (fun s ib => processBar spec ib.1 ib.2 s)
    (initState spec bars cap)

/-- Every intermediate state of the run_backtest bar loop, starting with the
initial state. -/
def runTrace (spec : BotSpec) (bars : List KLine) (cap : ℚ) : List SimState :=
  (bars.enum).scanl (fun s ib => processBar spec ib.1 ib.2 s)
    (initState spec bars cap)

/-- The result of run_backtest that the claims inspect: the trade log, the
equity curve, and the final balance and position after the terminal
mark-to-market close. -/
structure BacktestOutput where
  trades : List Trade
  equity_curve : List (ℤ × ℚ)
  final_balance : ℚ
  final_position : ℚ
deriving Repr

/-- backend/backtesting/engine.py run_backtest: empty data returns an empty
result; otherwise the bar loop runs and a residual position is
marked-to-market at the last close and logged as a synthetic CLOSE trade. -/
def run_backtest (spec : BotSpec) (bars : List KLine) (cap : ℚ) :
    BacktestOutput :=
  match bars with
  | [] => { trades := [], equity_curve := [], final_balance := cap,
            final_position := 0 }
  | b :: bs =>
    let sF := runLoop spec (b :: bs) cap
    let lastBar := (b :: bs).getLast (List.cons_ne_nil b bs)
    if (1:ℚ)/1000000000 < sF.position_quantity then
      let unrealized_pnl :=
        (lastBar.closePrice - sF.average_entry_price) * sF.position_quantity
      let final_equity :=
        sF.balance + sF.position_quantity * lastBar.closePrice
      { trades := sF.trades ++
          [{ entry_timestamp := lastBar.ts,
             entry_price := sF.average_entry_price,
             exit_timestamp := some lastBar.ts,
             exit_price := some lastBar.closePrice,
             quantity := sF.position_quantity,
             pnl := some unrealized_pnl, side := "CLOSE",
             avg_entry_price := some sF.average_entry_price }]
        equity_curve := sF.equity_curve
        final_balance := final_equity
        final_position := 0 }
    else
      { trades := sF.trades, equity_curve := sF.equity_curve,
        final_balance := sF.balance, final_position := sF.position_quantity }

/-- The total quote cost of all BUY records of a trade log. -/
def sumBuyCosts (trades : List Trade) : ℚ :=
  ((trades.filter (fun t => t.side = "BUY")).map
    (fun t => t.quantity * t.entry_price)).sum

/-- The total quote proceeds of all SELL records of a trade log. -/
def sumSellProceeds (trades : List Trade) : ℚ :=
  ((trades.filter (fun t => t.side = "SELL")).map
    (fun t => t.quantity * t.entry_price)).sum

theorem sumBuyCosts_append (a b : List Trade) :
    sumBuyCosts (a ++ b) = sumBuyCosts a + sumBuyCosts b := by
  simp [sumBuyCosts, List.filter_append]

theorem sumSellProceeds_append (a b : List Trade) :
    sumSellProceeds (a ++ b) = sumSellProceeds a + sumSellProceeds b := by
  simp [sumSellProceeds, List.filter_append]

theorem genSignal_ledger (spec : BotSpec) (i : ℕ) (bar : KLine)
    (s : SimState) :
    ((genSignal spec i bar s).2.2).balance = s.balance ∧
    ((genSignal spec i bar s).2.2).position_quantity = s.position_quantity ∧
    ((genSignal spec i bar s).2.2).trades = s.trades ∧
    ((genSignal spec i bar s).2.2).average_entry_price
      = s.average_entry_price := by
  cases spec with
  | momentum p ind => exact ⟨rfl, rfl, rfl, rfl⟩
  | grid p => exact ⟨rfl, rfl, rfl, rfl⟩
  | dca p =>
    simp only [genSignal]
    split_ifs <;> exact ⟨rfl, rfl, rfl, rfl⟩

theorem executeSignal_conservation (sig : Option Side) (qty price : ℚ)
    (ts : ℤ) (s : SimState) :
    (executeSignal sig qty price ts s).balance
        + sumBuyCosts (executeSignal sig qty price ts s).trades
        - sumSellProceeds (executeSignal sig qty price ts s).trades
      = s.balance + sumBuyCosts s.trades - sumSellProceeds s.trades := by
  cases sig with
  | none => rfl
  | some side =>
    cases side with
    | buy =>
      simp only [executeSignal]
      split_ifs with h1 h2 h3
      · simp only [sumBuyCosts_append, sumSellProceeds_append]
        simp [sumBuyCosts, sumSellProceeds]
        try ring
      · simp only [sumBuyCosts_append, sumSellProceeds_append]
        simp [sumBuyCosts, sumSellProceeds]
        try ring
      · rfl
      · rfl
    | sell =>
      simp only [executeSignal]
      split_ifs with h1 h2
      · simp only [sumBuyCosts_append, sumSellProceeds_append]
        simp [sumBuyCosts, sumSellProceeds]
        try ring
      · simp only [sumBuyCosts_append, sumSellProceeds_append]
        simp [sumBuyCosts, sumSellProceeds]
        try ring
      · rfl

theorem appendEquity_fields (bar : KLine) (s : SimState) :
    (appendEquity bar s).balance = s.balance ∧
    (appendEquity bar s).position_quantity = s.position_quantity ∧
    (appendEquity bar s).trades = s.trades ∧
    (appendEquity bar s).average_entry_price = s.average_entry_price :=
  ⟨rfl, rfl, rfl, rfl⟩

theorem processBar_conservation (spec : BotSpec) (i : ℕ) (bar : KLine)
    (s : SimState) :
    (processBar spec i bar s).balance
        + sumBuyCosts (processBar spec i bar s).trades
        - sumSellProceeds (processBar spec i bar s).trades
      = s.balance + sumBuyCosts s.trades - sumSellProceeds s.trades := by
  have key : ∀ s' : SimState,
      (appendEquity bar (executeSignal (genSignal spec i bar s').1
          (genSignal spec i bar s').2.1 bar.closePrice bar.ts
          (genSignal spec i bar s').2.2)).balance
        + sumBuyCosts (appendEquity bar (executeSignal (genSignal spec i bar s').1
          (genSignal spec i bar s').2.1 bar.closePrice bar.ts
          (genSignal spec i bar s').2.2)).trades
        - sumSellProceeds (appendEquity bar (executeSignal (genSignal spec i bar s').1
          (genSignal spec i bar s').2.1 bar.closePrice bar.ts
          (genSignal spec i bar s').2.2)).trades
      = s'.balance + sumBuyCosts s'.trades - sumSellProceeds s'.trades := by
    intro s'
    obtain ⟨hb, _, ht, _⟩ := genSignal_ledger spec i bar s'
    have hex := executeSignal_conservation (genSignal spec i bar s').1
      (genSignal spec i bar s').2.1 bar.closePrice bar.ts
      (genSignal spec i bar s').2.2
    simp only [appendEquity]
    rw [hex, hb, ht]
  cases spec with
  | momentum p ind =>
    by_cases hi : i < p.ema_long_period
    · simp only [processBar, if_pos hi, appendEquity]
    · simp only [processBar, if_neg hi]
      exact key s
  | grid p => exact key s
  | dca p => exact key s

theorem foldl_ledger_invariant {α : Type _} (g : SimState → ℚ)
    (f : SimState → α → SimState)
    (hstep : ∀ s a, g (f s a) = g s) :
    ∀ (l : List α) (init : SimState), g (List.foldl f init l) = g init
  | [], _ => rfl
  | a :: l, init => by
    rw [List.foldl_cons, foldl_ledger_invariant g f hstep l (f init a),
      hstep init a]

/-- C4, amended: in every run of the bar loop, the sum of BUY quote costs
minus the sum of SELL quote proceeds equals initial capital minus the cash
balance at the end of the loop, exactly; the cost basis of a still-open
position does not enter the identity, because a BUY reduces cash by its full
cost. -/
theorem ledger_conservation (spec : BotSpec) (bars : List KLine) (cap : ℚ) :
    sumBuyCosts (runLoop spec bars cap).trades
        - sumSellProceeds (runLoop spec bars cap).trades
      = cap - (runLoop spec bars cap).balance := by
  have h := foldl_ledger_invariant
    (fun s => s.balance + sumBuyCosts s.trades - sumSellProceeds s.trades)
    (fun s ib => processBar spec ib.1 ib.2 s)
    (fun s ib => processBar_conservation spec ib.1 ib.2 s)
    bars.enum (initState spec bars cap)
  have hinit : (initState spec bars cap).balance
      + sumBuyCosts (initState spec bars cap).trades
      - sumSellProceeds (initState spec bars cap).trades = cap := by
    simp [initState, sumBuyCosts, sumSellProceeds]
  rw [runLoop]
  have := h.trans hinit
  linarith [this]

/-- A DCA configuration: buy 100 quote every 3600 seconds. -/
def dcaSpecEx : BotSpec :=
  .dca { buy_interval_seconds := 3600, order_amount_quote := 100 }

/-- Two bars, half an interval apart, with the price rising from 50 to 60;
the DCA run buys once at the first bar and ends with an open position. -/
def barsConservationEx : List KLine :=
  [{ ts := 0, openPrice := 50, highPrice := 50, lowPrice := 50,
     closePrice := 50, volume := 0 },
   { ts := 1800000, openPrice := 60, highPrice := 60, lowPrice := 60,
     closePrice := 60, volume := 0 }]

/-- C4, counterexample: on the two-bar DCA run with initial capital 100,
BUY costs are 100, SELL proceeds 0 and the open position's cost basis 100,
so the claim's left-hand side is 0; but initial capital minus the loop-final
cash balance is 100, and initial capital minus the post-mark-to-market
balance is -20 — the claimed identity fails under either reading of "final
cash balance". -/
theorem ledger_conservation_counterexample :
    (sumBuyCosts (runLoop dcaSpecEx barsConservationEx 100).trades
        - sumSellProceeds (runLoop dcaSpecEx barsConservationEx 100).trades
        - (runLoop dcaSpecEx barsConservationEx 100).average_entry_price
          * (runLoop dcaSpecEx barsConservationEx 100).position_quantity
      ≠ 100 - (runLoop dcaSpecEx barsConservationEx 100).balance) ∧
    (sumBuyCosts (runLoop dcaSpecEx barsConservationEx 100).trades
        - sumSellProceeds (runLoop dcaSpecEx barsConservationEx 100).trades
        - (runLoop dcaSpecEx barsConservationEx 100).average_entry_price
          * (runLoop dcaSpecEx barsConservationEx 100).position_quantity
      ≠ 100 - (run_backtest dcaSpecEx barsConservationEx 100).final_balance) := by
  constructor
  · with_unfolding_all decide
  · with_unfolding_all decide

/-- C9: run_backtest is a pure function of its inputs — the embedded loop
reads no clock and no randomness — so two invocations on the same bot
configuration, bar sequence and initial capital produce identical trade
logs and identical equity curves. -/
theorem run_backtest_deterministic (spec1 spec2 : BotSpec)
    (bars1 bars2 : List KLine) (cap1 cap2 : ℚ)
    (hspec : spec1 = spec2) (hbars : bars1 = bars2) (hcap : cap1 = cap2) :
    (run_backtest spec1 bars1 cap1).trades
        = (run_backtest spec2 bars2 cap2).trades ∧
    (run_backtest spec1 bars1 cap1).equity_curve
        = (run_backtest spec2 bars2 cap2).equity_curve := by
  subst hspec
  subst hbars
  subst hcap
  exact ⟨rfl, rfl⟩

/-- C9 witness: the two-bar DCA run compared with itself. -/
theorem run_backtest_deterministic_witness :
    (run_backtest dcaSpecEx barsConservationEx 100).trades
        = (run_backtest dcaSpecEx barsConservationEx 100).trades ∧
    (run_backtest dcaSpecEx barsConservationEx 100).equity_curve
        = (run_backtest dcaSpecEx barsConservationEx 100).equity_curve :=
  run_backtest_deterministic dcaSpecEx dcaSpecEx barsConservationEx
    barsConservationEx 100 100 rfl rfl rfl

/-- Modelled from the spec: the schedule-anchored DCA purchase times.  The
first purchase is scheduled at the first bar; after a purchase the schedule
advances by one interval from the previously scheduled time, and when more
than one interval has been missed it skips to the first interval boundary
strictly after the current bar time.  The implementation of this rule lives
in the live bot (dca_bot.py _schedule_next_purchase), not in the simulation
under test. -/
def specDCABuyTimes (interval_seconds : ℤ) (ts_list : List ℤ) : List ℤ :=
  match ts_list with
  | [] => []
  | t0 :: _ =>
    let interval_ms := interval_seconds * 1000
    (ts_list.foldl (fun (acc : List ℤ × ℤ) t =>
      if acc.2 ≤ t then
        let next1 := acc.2 + interval_ms
        let next2 :=
          if next1 ≤ t then
            acc.2 + interval_ms * ((t - acc.2) / interval_ms + 1)
          else next1
        (acc.1 ++ [t], next2)
      else (acc.1, acc.2)) ([], t0)).1

/-- Three flat bars at 0, 1.5 and 2 intervals. -/
def barsScheduleEx : List KLine :=
  [{ ts := 0, openPrice := 50, highPrice := 50, lowPrice := 50,
     closePrice := 50, volume := 0 },
   { ts := 5400000, openPrice := 50, highPrice := 50, lowPrice := 50,
     closePrice := 50, volume := 0 },
   { ts := 7200000, openPrice := 50, highPrice := 50, lowPrice := 50,
     closePrice := 50, volume := 0 }]

/-- C5, counterexample: on bars at 0, 1.5 and 2 intervals, the simulation
executes purchases at 0 and 1.5 intervals only (the anchor moves to the bar
time of each executed purchase), whereas the claimed schedule-anchored rule
also buys at the 2-interval boundary bar. -/
theorem dca_schedule_counterexample :
    ((run_backtest dcaSpecEx barsScheduleEx 1000).trades.filter
        (fun t => t.side = "BUY")).map (fun t => t.entry_timestamp)
      = [0, 5400000] ∧
    specDCABuyTimes 3600 [0, 5400000, 7200000] = [0, 5400000, 7200000] ∧
    ([0, 5400000] : List ℤ) ≠ [0, 5400000, 7200000] := by
  refine ⟨?_, by decide, by decide⟩
  with_unfolding_all decide

/-- C5, amended: in the simulation a DCA purchase fires exactly when one
configured interval has elapsed since the last purchase's bar timestamp and
the balance covers the order, and the schedule anchor is then set to the
current bar's own timestamp — advancement from "now", not from the
previously scheduled time, so missed boundaries shift all later purchases
rather than being skipped. -/
theorem dca_schedule_advances_from_now (p : DCAParams) (i : ℕ) (bar : KLine)
    (s : SimState) :
    (p.buy_interval_seconds * 1000 ≤ bar.ts - s.last_buy_timestamp ∧
        p.order_amount_quote ≤ s.balance →
      genSignal (BotSpec.dca p) i bar s =
        (some Side.buy, p.order_amount_quote / bar.closePrice,
          { s with last_buy_timestamp := bar.ts })) ∧
    (¬ (p.buy_interval_seconds * 1000 ≤ bar.ts - s.last_buy_timestamp ∧
        p.order_amount_quote ≤ s.balance) →
      genSignal (BotSpec.dca p) i bar s = (none, 0, s)) := by
  constructor
  · intro ⟨h1, h2⟩
    simp only [genSignal, if_pos h1, if_pos h2]
  · intro h
    by_cases h1 : p.buy_interval_seconds * 1000 ≤ bar.ts - s.last_buy_timestamp
    · have h2 : ¬ p.order_amount_quote ≤ s.balance := fun h2 => h ⟨h1, h2⟩
      simp only [genSignal, if_pos h1, if_neg h2]
    · simp only [genSignal, if_neg h1]

/-- C5 witness: the first bar of the schedule example fires a purchase and
re-anchors the schedule at that bar's timestamp. -/
theorem dca_schedule_advances_from_now_witness :
    genSignal dcaSpecEx 0
        { ts := 0, openPrice := 50, highPrice := 50, lowPrice := 50,
          closePrice := 50, volume := 0 }
        (initState dcaSpecEx barsScheduleEx 1000) =
      (some Side.buy, (100 : ℚ) / (50 : ℚ),
        { initState dcaSpecEx barsScheduleEx 1000 with
            last_buy_timestamp := 0 }) :=
  (dca_schedule_advances_from_now
      { buy_interval_seconds := 3600, order_amount_quote := 100 } 0
      { ts := 0, openPrice := 50, highPrice := 50, lowPrice := 50,
        closePrice := 50, volume := 0 }
      (initState dcaSpecEx barsScheduleEx 1000)).1
    ⟨by with_unfolding_all decide, by with_unfolding_all decide⟩

theorem executeSignal_nonneg (sig : Option Side) (qty price : ℚ) (ts : ℤ)
    (s : SimState) (hb : 0 ≤ s.balance) (hp : 0 ≤ s.position_quantity)
    (hprice : 0 ≤ price) :
    0 ≤ (executeSignal sig qty price ts s).balance ∧
    0 ≤ (executeSignal sig qty price ts s).position_quantity := by
  cases sig with
  | none => exact ⟨hb, hp⟩
  | some side =>
    cases side with
    | buy =>
      simp only [executeSignal]
      split_ifs with h1 h2 h3
      · refine ⟨?_, ?_⟩ <;> dsimp only
        · linarith [h2]
        · linarith [h1.2]
      · refine ⟨?_, ?_⟩ <;> dsimp only
        · linarith [h2]
        · linarith [h1.2]
      · exact ⟨hb, hp⟩
      · exact ⟨hb, hp⟩
    | sell =>
      simp only [executeSignal]
      split_ifs with h1 h2
      · refine ⟨?_, ?_⟩ <;> dsimp only
        · exact add_nonneg hb
            (mul_nonneg (le_min hp h1.2.le) hprice)
        · exact le_refl 0
      · refine ⟨?_, ?_⟩ <;> dsimp only
        · exact add_nonneg hb
            (mul_nonneg (le_min hp h1.2.le) hprice)
        · exact sub_nonneg.mpr (min_le_left _ _)
      · exact ⟨hb, hp⟩

theorem momentumSignal_sell (p : MomentumParams) (v : MomIndicators)
    (position : ℚ) :
    (momentumSignal p v position).1 = some Side.sell →
    (momentumSignal p v position).2 = position := by
  obtain ⟨r, ml, ms, es, el⟩ := v
  cases r <;> cases ml <;> cases ms <;> cases es <;> cases el <;>
    simp only [momentumSignal] <;> (try split_ifs) <;> intro h <;> simp_all

theorem gridScan_qty (order_qty price lastp bal pos : ℚ)
    (states : List (ℚ × Bool)) :
    ∀ levels : List ℚ,
      ((gridScan order_qty price lastp bal pos states levels).1
          = some Side.sell →
        (gridScan order_qty price lastp bal pos states levels).2.1
            = order_qty ∧ order_qty ≤ pos) ∧
      ((gridScan order_qty price lastp bal pos states levels).1
          = some Side.buy →
        (gridScan order_qty price lastp bal pos states levels).2.1
            = order_qty)
  | [] => by simp [gridScan]
  | lvl :: rest => by
    simp only [gridScan]
    split_ifs with h1 h2 h3 h4 h5
    · exact ⟨fun h => by simp at h, fun _ => rfl⟩
    · exact gridScan_qty order_qty price lastp bal pos states rest
    · exact ⟨fun _ => ⟨rfl, h5⟩, fun h => by simp at h⟩
    · exact gridScan_qty order_qty price lastp bal pos states rest
    · exact gridScan_qty order_qty price lastp bal pos states rest
    · exact gridScan_qty order_qty price lastp bal pos states rest

theorem genSignal_sell_le (spec : BotSpec) (i : ℕ) (bar : KLine)
    (s : SimState) :
    (genSignal spec i bar s).1 = some Side.sell →
    (genSignal spec i bar s).2.1 ≤ s.position_quantity := by
  cases spec with
  | momentum p ind =>
    simp only [genSignal]
    intro h
    rw [momentumSignal_sell p (ind i) s.position_quantity h]
  | grid p =>
    simp only [genSignal]
    split_ifs with hg
    · intro h
      obtain ⟨heq, hle⟩ := (gridScan_qty p.order_quantity bar.closePrice
        s.last_price s.balance s.position_quantity s.grid_states
        (sortLevels (gridLevels p))).1 h
      rw [heq]
      exact hle
    · intro h
      simp at h
  | dca p =>
    simp only [genSignal]
    split_ifs <;> intro h <;> simp at h

theorem executeSignal_cases (sig : Option Side) (qty price : ℚ) (ts : ℤ)
    (s : SimState)
    (hsell : sig = some Side.sell → qty ≤ s.position_quantity) :
    ((executeSignal sig qty price ts s).balance = s.balance ∧
      (executeSignal sig qty price ts s).position_quantity
        = s.position_quantity ∧
      (executeSignal sig qty price ts s).trades = s.trades) ∨
    (sig = some Side.buy ∧ 0 < qty ∧ qty * price ≤ s.balance ∧
      (executeSignal sig qty price ts s).balance = s.balance - qty * price ∧
      (executeSignal sig qty price ts s).position_quantity
        = s.position_quantity + qty ∧
      ∃ t, (executeSignal sig qty price ts s).trades = s.trades ++ [t] ∧
        t.side = "BUY" ∧ t.quantity = qty ∧ t.entry_price = price) ∨
    (sig = some Side.sell ∧ 0 < qty ∧ qty ≤ s.position_quantity ∧
      (executeSignal sig qty price ts s).balance = s.balance + qty * price ∧
      ((executeSignal sig qty price ts s).position_quantity
          = s.position_quantity - qty ∨
        (s.position_quantity - qty < 1/1000000000 ∧
          (executeSignal sig qty price ts s).position_quantity = 0)) ∧
      ∃ t, (executeSignal sig qty price ts s).trades = s.trades ++ [t] ∧
        t.side = "SELL" ∧ t.quantity = qty ∧ t.entry_price = price) := by
  cases sig with
  | none => exact Or.inl ⟨rfl, rfl, rfl⟩
  | some side =>
    cases side with
    | buy =>
      simp only [executeSignal]
      split_ifs with h1 h2 h3
      · exact Or.inr (Or.inl
          ⟨trivial, h1.2, h2, rfl, rfl, _, rfl, rfl, rfl, rfl⟩)
      · exact Or.inr (Or.inl
          ⟨trivial, h1.2, h2, rfl, rfl, _, rfl, rfl, rfl, rfl⟩)
      · exact Or.inl ⟨rfl, rfl, rfl⟩
      · exact Or.inl ⟨rfl, rfl, rfl⟩
    | sell =>
      have hq : min s.position_quantity qty = qty := min_eq_right (hsell rfl)
      simp only [executeSignal]
      split_ifs with h1 h2
      · refine Or.inr (Or.inr
          ⟨trivial, h1.2, hsell rfl, ?_, ?_, ⟨_, rfl, rfl, hq, rfl⟩⟩)
        · show s.balance + min s.position_quantity qty * price
            = s.balance + qty * price
          rw [hq]
        · refine Or.inr ⟨?_, rfl⟩
          have h2' : s.position_quantity - min s.position_quantity qty
              < 1/1000000000 := h2
          rw [hq] at h2'
          exact h2'
      · refine Or.inr (Or.inr
          ⟨trivial, h1.2, hsell rfl, ?_, ?_, ⟨_, rfl, rfl, hq, rfl⟩⟩)
        · show s.balance + min s.position_quantity qty * price
            = s.balance + qty * price
          rw [hq]
        · refine Or.inl ?_
          show s.position_quantity - min s.position_quantity qty
            = s.position_quantity - qty
          rw [hq]
      · exact Or.inl ⟨rfl, rfl, rfl⟩

theorem processBar_nonneg (spec : BotSpec) (i : ℕ) (bar : KLine)
    (s : SimState) (hb : 0 ≤ s.balance) (hp : 0 ≤ s.position_quantity)
    (hprice : 0 ≤ bar.closePrice) :
    0 ≤ (processBar spec i bar s).balance ∧
    0 ≤ (processBar spec i bar s).position_quantity := by
  have key : ∀ s' : SimState, 0 ≤ s'.balance → 0 ≤ s'.position_quantity →
      0 ≤ (appendEquity bar (executeSignal (genSignal spec i bar s').1
          (genSignal spec i bar s').2.1 bar.closePrice bar.ts
          (genSignal spec i bar s').2.2)).balance ∧
      0 ≤ (appendEquity bar (executeSignal (genSignal spec i bar s').1
          (genSignal spec i bar s').2.1 bar.closePrice bar.ts
          (genSignal spec i bar s').2.2)).position_quantity := by
    intro s' hb' hp'
    obtain ⟨hgb, hgp, _, _⟩ := genSignal_ledger spec i bar s'
    exact executeSignal_nonneg (genSignal spec i bar s').1
      (genSignal spec i bar s').2.1 bar.closePrice bar.ts
      (genSignal spec i bar s').2.2 (hgb ▸ hb') (hgp ▸ hp') hprice
  cases spec with
  | momentum p ind =>
    by_cases hi : i < p.ema_long_period
    · simp only [processBar, if_pos hi]
      exact ⟨hb, hp⟩
    · simp only [processBar, if_neg hi]
      exact key s hb hp
  | grid p => exact key s hb hp
  | dca p => exact key s hb hp

theorem foldl_state_invariant {σ α : Type _} (f : σ → α → σ) (P : σ → Prop) :
    ∀ (l : List α) (init : σ), P init →
      (∀ s a, a ∈ l → P s → P (f s a)) → P (List.foldl f init l)
  | [], _, h0, _ => h0
  | a :: l, init, h0, hstep => by
    rw [List.foldl_cons]
    exact foldl_state_invariant f P l (f init a)
      (hstep init a (List.mem_cons_self a l) h0)
      (fun s b hbm => hstep s b (List.mem_cons_of_mem a hbm))

theorem scanl_state_invariant {σ α : Type _} (f : σ → α → σ) (P : σ → Prop) :
    ∀ (l : List α) (init : σ), P init →
      (∀ s a, a ∈ l → P s → P (f s a)) →
      ∀ s ∈ List.scanl f init l, P s
  | [], init, h0, _, s, hs => by
    simp only [List.scanl_nil, List.mem_singleton] at hs
    exact hs ▸ h0
  | a :: l, init, h0, hstep, s, hs => by
    simp only [List.scanl_cons, List.singleton_append, List.mem_cons] at hs
    rcases hs with rfl | hs
    · exact h0
    · exact scanl_state_invariant f P l (f init a)
        (hstep init a (List.mem_cons_self a l) h0)
        (fun s' b hbm => hstep s' b (List.mem_cons_of_mem a hbm)) s hs

theorem enumFrom_snd_mem {α : Type _} :
    ∀ (l : List α) (n : ℕ) (p : ℕ × α), p ∈ l.enumFrom n → p.2 ∈ l
  | [], _, _, h => absurd h (by simp)
  | a :: l, n, p, h => by
    simp only [List.enumFrom] at h
    rcases List.mem_cons.mp h with rfl | h
    · exact List.mem_cons_self a l
    · exact List.mem_cons_of_mem a (enumFrom_snd_mem l (n + 1) p h)

theorem enum_snd_mem {α : Type _} (l : List α) (p : ℕ × α)
    (h : p ∈ l.enum) : p.2 ∈ l :=
  enumFrom_snd_mem l 0 p h

/-- C2: in every run of the embedded run_backtest with nonnegative initial
capital on bars with nonnegative close prices, the cash balance and the
position quantity are nonnegative at every bar (every state of the loop
trace, and the returned final state); moreover each bar's order execution is
whole-or-none: it either leaves balance, position and trade log unchanged,
or it executes the full signalled quantity — a BUY only when its entire cost
fits in the balance, a SELL only for a quantity at most the position (with
at most a dust-level snap of the residual position to zero). -/
theorem backtest_ledger_nonnegative (spec : BotSpec) (bars : List KLine)
    (cap : ℚ) (hcap : 0 ≤ cap)
    (hprices : ∀ b ∈ bars, 0 ≤ b.closePrice) :
    (∀ s ∈ runTrace spec bars cap,
      0 ≤ s.balance ∧ 0 ≤ s.position_quantity) ∧
    (0 ≤ (run_backtest spec bars cap).final_balance ∧
      0 ≤ (run_backtest spec bars cap).final_position) ∧
    (∀ (s : SimState) (i : ℕ) (bar : KLine),
      ((executeSignal (genSignal spec i bar s).1 (genSignal spec i bar s).2.1
            bar.closePrice bar.ts (genSignal spec i bar s).2.2).balance
          = s.balance ∧
        (executeSignal (genSignal spec i bar s).1 (genSignal spec i bar s).2.1
            bar.closePrice bar.ts
            (genSignal spec i bar s).2.2).position_quantity
          = s.position_quantity ∧
        (executeSignal (genSignal spec i bar s).1 (genSignal spec i bar s).2.1
            bar.closePrice bar.ts (genSignal spec i bar s).2.2).trades
          = s.trades) ∨
      ((genSignal spec i bar s).1 = some Side.buy ∧
        0 < (genSignal spec i bar s).2.1 ∧
        (genSignal spec i bar s).2.1 * bar.closePrice ≤ s.balance ∧
        (executeSignal (genSignal spec i bar s).1 (genSignal spec i bar s).2.1
            bar.closePrice bar.ts (genSignal spec i bar s).2.2).balance
          = s.balance - (genSignal spec i bar s).2.1 * bar.closePrice ∧
        (executeSignal (genSignal spec i bar s).1 (genSignal spec i bar s).2.1
            bar.closePrice bar.ts
            (genSignal spec i bar s).2.2).position_quantity
          = s.position_quantity + (genSignal spec i bar s).2.1 ∧
        ∃ t, (executeSignal (genSignal spec i bar s).1
            (genSignal spec i bar s).2.1 bar.closePrice bar.ts
            (genSignal spec i bar s).2.2).trades = s.trades ++ [t] ∧
          t.side = "BUY" ∧ t.quantity = (genSignal spec i bar s).2.1 ∧
          t.entry_price = bar.closePrice) ∨
      ((genSignal spec i bar s).1 = some Side.sell ∧
        0 < (genSignal spec i bar s).2.1 ∧
        (genSignal spec i bar s).2.1 ≤ s.position_quantity ∧
        (executeSignal (genSignal spec i bar s).1 (genSignal spec i bar s).2.1
            bar.closePrice bar.ts (genSignal spec i bar s).2.2).balance
          = s.balance + (genSignal spec i bar s).2.1 * bar.closePrice ∧
        ((executeSignal (genSignal spec i bar s).1
            (genSignal spec i bar s).2.1 bar.closePrice bar.ts
            (genSignal spec i bar s).2.2).position_quantity
            = s.position_quantity - (genSignal spec i bar s).2.1 ∨
          (s.position_quantity - (genSignal spec i bar s).2.1
              < 1/1000000000 ∧
            (executeSignal (genSignal spec i bar s).1
              (genSignal spec i bar s).2.1 bar.closePrice bar.ts
              (genSignal spec i bar s).2.2).position_quantity = 0)) ∧
        ∃ t, (executeSignal (genSignal spec i bar s).1
            (genSignal spec i bar s).2.1 bar.closePrice bar.ts
            (genSignal spec i bar s).2.2).trades = s.trades ++ [t] ∧
          t.side = "SELL" ∧ t.quantity = (genSignal spec i bar s).2.1 ∧
          t.entry_price = bar.closePrice)) := by
  have hstep : ∀ (s : SimState) (a : ℕ × KLine), a ∈ bars.enum →
      (0 ≤ s.balance ∧ 0 ≤ s.position_quantity) →
      0 ≤ (processBar spec a.1 a.2 s).balance ∧
      0 ≤ (processBar spec a.1 a.2 s).position_quantity := by
    intro s a ha hP
    exact processBar_nonneg spec a.1 a.2 s hP.1 hP.2
      (hprices a.2 (enum_snd_mem bars a ha))
  have hinit : 0 ≤ (initState spec bars cap).balance ∧
      0 ≤ (initState spec bars cap).position_quantity := ⟨hcap, le_refl 0⟩
  refine ⟨?_, ?_, ?_⟩
  · exact scanl_state_invariant _
      (fun s => 0 ≤ s.balance ∧ 0 ≤ s.position_quantity)
      bars.enum (initState spec bars cap) hinit hstep
  · cases bars with
    | nil => exact ⟨hcap, le_refl 0⟩
    | cons b bs =>
      have hP : 0 ≤ (runLoop spec (b :: bs) cap).balance ∧
          0 ≤ (runLoop spec (b :: bs) cap).position_quantity :=
        foldl_state_invariant _
          (fun s => 0 ≤ s.balance ∧ 0 ≤ s.position_quantity)
          ((b :: bs).enum) (initState spec (b :: bs) cap) hinit hstep
      have hlast : 0 ≤ ((b :: bs).getLast (List.cons_ne_nil b bs)).closePrice :=
        hprices _ (List.getLast_mem (List.cons_ne_nil b bs))
      simp only [run_backtest]
      split_ifs with hterm
      · exact ⟨add_nonneg hP.1 (mul_nonneg hP.2 hlast), le_refl 0⟩
      · exact ⟨hP.1, hP.2⟩
  · intro s i bar
    obtain ⟨hgb, hgp, hgt, _⟩ := genSignal_ledger spec i bar s
    have hcases := executeSignal_cases (genSignal spec i bar s).1
      (genSignal spec i bar s).2.1 bar.closePrice bar.ts
      (genSignal spec i bar s).2.2
      (fun h => hgp ▸ genSignal_sell_le spec i bar s h)
    rw [hgb, hgp, hgt] at hcases
    exact hcases

/-- C2 witness: the nonnegativity clause on the two-bar DCA run. -/
theorem backtest_ledger_nonnegative_witness :
    (0:ℚ) ≤ 100 ∧ (∀ b ∈ barsConservationEx, 0 ≤ b.closePrice) ∧
    (∀ s ∈ runTrace dcaSpecEx barsConservationEx 100,
      0 ≤ s.balance ∧ 0 ≤ s.position_quantity) :=
  ⟨by norm_num, by with_unfolding_all decide,
   (backtest_ledger_nonnegative dcaSpecEx barsConservationEx 100
     (by norm_num) (by with_unfolding_all decide)).1⟩

/-- One simulated open order of the BacktestEngine
(backend/utils/backtest.py); absent parameters are none. -/
structure SimOrder where
  id : String
  otype : String
  side : String
  price : Option ℚ := none
  qty : Option ℚ := none
  quoteOrderQty : Option ℚ := none
deriving DecidableEq, Repr

/-- One executed-trade record of the BacktestEngine; the balance fields hold
the balances right after the fill, as in the source dict. -/
structure EngTrade where
  timestamp : ℤ
  order_id : String
  otype : String
  side : String
  price : ℚ
  quantity : ℚ
  cost : ℚ
  commission : ℚ
  quote_balance : ℚ
  base_balance : ℚ
deriving DecidableEq, Repr

/-- The portfolio state of the BacktestEngine touched by a fill. -/
structure EngState where
  quote_balance : ℚ
  base_balance : ℚ
  trades : List EngTrade
deriving DecidableEq, Repr

/-- Phase one of BacktestEngine._simulate_order_fill: determine the fill
price and filled quantity from the order and the current candle.  MARKET
orders fill at the candle's open (a quote-quantity MARKET BUY converts at
that price), LIMIT orders at their limit price when the candle's low or high
crosses it; none means no fill. -/
def determineFill (order : SimOrder) (candle : KLine) :
    Option (ℚ × Option ℚ) :=
  if order.otype = "MARKET" then
    let fp := candle.openPrice
    if order.side = "BUY" ∧ order.quoteOrderQty.isSome ∧ 0 < fp then
      some (fp, some (order.quoteOrderQty.getD 0 / fp))
    else if order.side = "BUY" ∧ order.qty.isSome then some (fp, order.qty)
    else if order.side = "SELL" ∧ order.qty.isSome then some (fp, order.qty)
    else none
  else if order.otype = "LIMIT" then
    match order.price, order.qty with
    | some p, some q =>
      if order.side = "BUY" ∧ candle.lowPrice ≤ p then some (p, some q)
      else if order.side = "SELL" ∧ p ≤ candle.highPrice then
        some (p, some q)
      else none
    | _, _ => none
  else none

/-- backend/utils/backtest.py BacktestEngine._simulate_order_fill: the fill
determined by determineFill is applied to the balances; a fill that the
quote or base balance cannot cover is rejected whole, leaving the state
unchanged.  Returns the fill flag and the updated state. -/
def simulate_order_fill (commission_percent : ℚ) (current_time : ℤ)
    (order : SimOrder) (candle : KLine) (s : EngState) : Bool × EngState :=
  match determineFill order candle with
  | some (fill_price, some actual_qty) =>
    if 0 < actual_qty then
      let cost := actual_qty * fill_price
      let commission := cost * commission_percent
      if order.side = "BUY" then
        if cost + commission ≤ s.quote_balance then
          (true,
            { quote_balance := s.quote_balance - (cost + commission),
              base_balance := s.base_balance + actual_qty,
              trades := s.trades ++
                [{ timestamp := current_time, order_id := order.id,
                   otype := order.otype, side := order.side,
                   price := fill_price, quantity := actual_qty, cost := cost,
                   commission := commission,
                   quote_balance := s.quote_balance - (cost + commission),
                   base_balance := s.base_balance + actual_qty }] })
        else (false, s)
      else if order.side = "SELL" then
        if actual_qty ≤ s.base_balance then
          (true,
            { quote_balance := s.quote_balance + (cost - commission),
              base_balance := s.base_balance - actual_qty,
              trades := s.trades ++
                [{ timestamp := current_time, order_id := order.id,
                   otype := order.otype, side := order.side,
                   price := fill_price, quantity := actual_qty, cost := cost,
                   commission := commission,
                   quote_balance := s.quote_balance + (cost - commission),
                   base_balance := s.base_balance - actual_qty }] })
        else (false, s)
      else
        (true,
          { s with trades := s.trades ++
              [{ timestamp := current_time, order_id := order.id,
                 otype := order.otype, side := order.side,
                 price := fill_price, quantity := actual_qty, cost := cost,
                 commission := commission,
                 quote_balance := s.quote_balance,
                 base_balance := s.base_balance }] })
    else (false, s)
  | _ => (false, s)

theorem determineFill_market_price (order : SimOrder) (candle : KLine)
    (horder : order.otype = "MARKET") (fp : ℚ) (aq : Option ℚ)
    (h : determineFill order candle = some (fp, aq)) :
    fp = candle.openPrice := by
  simp only [determineFill, horder] at h
  split_ifs at h <;> simp_all

/-- C1, amended: in BacktestEngine._simulate_order_fill every MARKET order
that fills is recorded at the current candle's open price; the simplified
run_backtest engine of backtesting/engine.py, by contrast, executes its
signals at the current bar's close (see the counterexample). -/
theorem market_fill_price_is_open (commission_percent : ℚ)
    (current_time : ℤ) (order : SimOrder) (candle : KLine) (s : EngState)
    (horder : order.otype = "MARKET")
    (hfill : (simulate_order_fill commission_percent current_time order
        candle s).1 = true) :
    ∃ tr, (simulate_order_fill commission_percent current_time order
        candle s).2.trades = s.trades ++ [tr] ∧
      tr.price = candle.openPrice := by
  rcases hd : determineFill order candle with _ | ⟨fp, _ | aq⟩
  · simp only [simulate_order_fill, hd] at hfill
    exact Bool.noConfusion hfill
  · simp only [simulate_order_fill, hd] at hfill
    exact Bool.noConfusion hfill
  · have hfp : fp = candle.openPrice :=
      determineFill_market_price order candle horder fp (some aq) hd
    simp only [simulate_order_fill, hd] at hfill ⊢
    split_ifs at hfill ⊢ <;>
      first
        | exact Bool.noConfusion hfill
        | exact ⟨_, rfl, hfp⟩

/-- A concrete MARKET BUY order, candle and engine state. -/
def engOrderEx : SimOrder :=
  { id := "o1", otype := "MARKET", side := "BUY", qty := some 1 }

def engCandleEx : KLine :=
  { ts := 0, openPrice := 10, highPrice := 12, lowPrice := 9,
    closePrice := 11, volume := 0 }

def engStateEx : EngState :=
  { quote_balance := 100, base_balance := 0, trades := [] }

/-- C1 witness: the concrete MARKET BUY fills, and the recorded price is the
candle's open. -/
theorem market_fill_price_is_open_witness :
    engOrderEx.otype = "MARKET" ∧
    (simulate_order_fill (1/1000) 0 engOrderEx engCandleEx engStateEx).1
      = true ∧
    (∃ tr, (simulate_order_fill (1/1000) 0 engOrderEx engCandleEx
        engStateEx).2.trades = engStateEx.trades ++ [tr] ∧
      tr.price = engCandleEx.openPrice) :=
  ⟨rfl, by with_unfolding_all decide,
   market_fill_price_is_open (1/1000) 0 engOrderEx engCandleEx engStateEx
     rfl (by with_unfolding_all decide)⟩

/-- A single bar whose open and close differ. -/
def barFillEx : KLine :=
  { ts := 0, openPrice := 40, highPrice := 55, lowPrice := 35,
    closePrice := 50, volume := 0 }

/-- C1, counterexample: in run_backtest (backtesting/engine.py) the DCA
MARKET purchase against this bar is recorded at the bar's close price 50,
not at its open price 40. -/
theorem run_backtest_fills_at_close_counterexample :
    barFillEx.openPrice = 40 ∧
    ((run_backtest dcaSpecEx [barFillEx] 1000).trades.filter
        (fun t => t.side = "BUY")).map (fun t => t.entry_price) = [50] ∧
    ((50:ℚ)) ≠ 40 := by
  refine ⟨rfl, ?_, by norm_num⟩
  with_unfolding_all decide
